import Mathlib

/-!
Verification of the AFL ensemble synchronization engine
(`bin/deepstate/executors/fuzz/afl-ensemble.py`, class `AFL_Ensemble`).

The relevant operations are shallowly embedded:

* the filesystem pieces the sync cycle touches are a record `FS`
  (local worker directories, local hang/crash directories, the shared
  pool's artifact directories and per-node archive slots, and the
  process-local temporary file `fuzzer_tmp.tgz`);
* one `ensemble` invocation is a list of primitive operations `Op`
  (generated exactly in the order the Python source performs them)
  folded through an interpreter `applyOp`;
* `reporter` / `populate_stats` and the seed intake of `pre_exec`
  are embedded directly as functions.

Directory listings are modelled as association lists keyed by filename.
-/

namespace AflEnsemble

/-- Association-list lookup, keyed by filename. -/
def getEntry {α : Type} : List (String × α) → String → Option α
  | [], _ => none
  | (k', v) :: rest, k => if k' = k then some v else getEntry rest k

/-- Association-list overwrite-or-append, the effect of writing a file
    into a directory (an existing file of that name is overwritten). -/
def setEntry {α : Type} : List (String × α) → String → α → List (String × α)
  | [], k, v => [(k, v)]
  | (k', v') :: rest, k, v =>
      if k' = k then (k, v) :: rest else (k', v') :: setEntry rest k v

/-- One worker directory as the archiver sees it: its `fuzzer_stats` file
    content and its `queue` directory (filename to content). This encodes the
    tar arcnames `<worker_name>/fuzzer_stats` and `<worker_name>/queue/*`. -/
structure WorkerDir where
  stats : String
  queue : List (String × String)
deriving Repr, DecidableEq

/-- A corpus archive: the list of worker directories it bundles, each under
    its relative path. -/
abbrev Archive := List (String × WorkerDir)

/-- The contents of a `.tgz` file in the pool: `none` models a blob that is
    corrupt or mid-write, so that opening or extracting it raises. -/
abbrev Blob := Option Archive

/-- The filesystem state one worker's sync cycle reads and writes. -/
structure FS where
  /-- directories under `output_test_dir` (worker dirs, keyed by name) -/
  localDirs : List (String × WorkerDir)
  /-- files in this worker's local `hangs` directory -/
  localHangs : List (String × String)
  /-- files in this worker's local `crashes` directory -/
  localCrashes : List (String × String)
  /-- files in the shared pool's `hangs` directory -/
  poolHangs : List (String × String)
  /-- files in the shared pool's `crashes` directory -/
  poolCrashes : List (String × String)
  /-- files in the shared pool root (`sync_dir`), e.g. `FuzzData_1.tgz` -/
  poolFiles : List (String × Blob)
  /-- the process-local `fuzzer_tmp.tgz`, when it exists -/
  tmp : Option Blob
deriving Repr, DecidableEq

/-- `self.fuzzer_name = "fuzzer_" + self.fuzzer_node_id + "_" + self.fuzzer_id`
    (line 60 of the source). -/
def fuzzerName (nodeId fuzzerId : String) : String :=
  "fuzzer_" ++ nodeId ++ "_" ++ fuzzerId

/-- Line 55-58: `self.is_primary_fuzzer = (self.fuzzer_id == '0')`. -/
def isPrimaryFuzzer (fuzzerId : String) : Bool :=
  fuzzerId == "0"

/-- Line 218: `d.startswith(self.fuzzer_name[:8], 0, 8)` - the archiver
    selects a directory when its slice `d[0:8]` starts with the slice
    `fuzzer_name[:8]`. Characters of strings are handled as lists, matching
    Python's character indexing. -/
def selectsDir (fn d : String) : Bool :=
  (fn.data.take 8).isPrefixOf (d.data.take 8)

/-- Line 236: a pool file is pulled when
    `f.endswith(".tgz") and not f.startswith("FuzzData_" + self.fuzzer_node_id)`. -/
def peerSelected (nodeId f : String) : Bool :=
  ".tgz".data.isSuffixOf f.data && !(("FuzzData_" ++ nodeId).data.isPrefixOf f.data)

/-- Line 230: the node's archive slot name `FuzzData_<node_id>.tgz`. -/
def slotName (nodeId : String) : String :=
  "FuzzData_" ++ nodeId ++ ".tgz"

/-- The archive the primary builds at lines 217-226: every directory under
    the output root whose name passes `selectsDir`, bundling its stats file
    and queue directory under its relative path. -/
def nodeArchive (nodeId fuzzerId : String) (fs : FS) : Archive :=
  fs.localDirs.filter (fun p => selectsDir (fuzzerName nodeId fuzzerId) p.1)

/-- The primitive filesystem operations one `ensemble` call performs, in
    source order. -/
inductive Op
  /-- line 200: `shutil.copy2(hangfile, remote_hangs)` -/
  | copyHang (f c : String)
  /-- line 207: `shutil.copy2(crashfile, remote_crashes)` -/
  | copyCrash (f c : String)
  /-- line 213: `tarfile.open("fuzzer_tmp.tgz", "w:gz")` -/
  | tarOpen
  /-- lines 225-226: `tar.add` of one selected directory's stats and queue -/
  | tarAdd (d : String) (w : WorkerDir)
  /-- line 231: `shutil.move("fuzzer_tmp.tgz", remote_archive)` when the
      working directory and the pool are on the same filesystem: the move is
      one atomic `os.rename` onto the slot -/
  | moveTmp (slot : String)
  /-- line 231's `shutil.move` when the pool sits on a different filesystem:
      the fallback `copy2` first opens and truncates the destination slot;
      from then until the copy completes the slot holds a zero-byte or
      partially written file, unreadable as an archive -/
  | openSlot (slot : String)
  /-- the cross-filesystem fallback's copy completing: the slot now holds the
      full content of `fuzzer_tmp.tgz` -/
  | writeSlot (slot : String)
  /-- the cross-filesystem fallback's final `os.unlink` of the source
      `fuzzer_tmp.tgz` -/
  | removeTmp
  /-- lines 239-247: copy one peer archive to `fuzzer_tmp.tgz`, try to
      extract it, and on success remove the temporary copy; the whole
      per-archive body sits in one `try`/`except` -/
  | pullPeer (f : String) (b : Blob)
deriving Repr, DecidableEq

/-- Extraction of one archived worker directory into the local output root:
    `tar.extractall` overwrites files, so the extracted stats file replaces
    the old one and extracted queue entries overwrite same-named entries,
    while other existing queue entries remain. -/
def mergeDir (ds : List (String × WorkerDir)) (d : String) (w : WorkerDir) :
    List (String × WorkerDir) :=
  match getEntry ds d with
  | none => setEntry ds d w
  | some old =>
      setEntry ds d ⟨w.stats, w.queue.foldl (fun q p => setEntry q p.1 p.2) old.queue⟩

/-- Line 241: `tar.extractall(path=self.output_test_dir)`. -/
def extractInto (ds : List (String × WorkerDir)) (a : Archive) :
    List (String × WorkerDir) :=
  a.foldl (fun acc p => mergeDir acc p.1 p.2) ds

/-- Interpreter for one primitive operation. -/
def applyOp (fs : FS) : Op → FS
  | .copyHang f c => { fs with poolHangs := setEntry fs.poolHangs f c }
  | .copyCrash f c => { fs with poolCrashes := setEntry fs.poolCrashes f c }
  | .tarOpen => { fs with tmp := some (some []) }
  | .tarAdd d w =>
      match fs.tmp with
      | some (some a) => { fs with tmp := some (some (a ++ [(d, w)])) }
      | _ => { fs with tmp := some (some [(d, w)]) }
  | .moveTmp slot =>
      { fs with
        poolFiles := setEntry fs.poolFiles slot (match fs.tmp with
          | some b => b
          | none => none),
        tmp := none }
  | .openSlot slot =>
      { fs with poolFiles := setEntry fs.poolFiles slot none }
  | .writeSlot slot =>
      { fs with
        poolFiles := setEntry fs.poolFiles slot (match fs.tmp with
          | some b => b
          | none => none) }
  | .removeTmp => { fs with tmp := none }
  | .pullPeer _ b =>
      match b with
      | some a => { fs with localDirs := extractInto fs.localDirs a, tmp := none }
      | none => { fs with tmp := some none }

/-- The pool root as the primary's `os.listdir(self.sync_dir)` at line 234
    sees it: after its own `shutil.move` has filled (or refreshed) its slot. -/
def poolAfterPublish (nodeId fuzzerId : String) (fs : FS) : List (String × Blob) :=
  setEntry fs.poolFiles (slotName nodeId) (some (nodeArchive nodeId fuzzerId fs))

/-- Lines 195-200: one copy per file of the worker's hang directory. -/
def hangOps (fs : FS) : List Op :=
  fs.localHangs.map (fun p => Op.copyHang p.1 p.2)

/-- Lines 202-207: one copy per file of the worker's crash directory. -/
def crashOps (fs : FS) : List Op :=
  fs.localCrashes.map (fun p => Op.copyCrash p.1 p.2)

/-- Lines 213-231: open the temporary tar, add every selected directory,
    close it and move it onto the node's slot in the pool. -/
def pushOps (nodeId fuzzerId : String) (fs : FS) : List Op :=
  Op.tarOpen
    :: (nodeArchive nodeId fuzzerId fs).map (fun p => Op.tarAdd p.1 p.2)
    ++ [Op.moveTmp (slotName nodeId)]

/-- Lines 234-247: pull every pool file selected by `peerSelected`, in
    listing order. -/
def pullOps (nodeId fuzzerId : String) (fs : FS) : List Op :=
  ((poolAfterPublish nodeId fuzzerId fs).filter
      (fun p => peerSelected nodeId p.1)).map
    (fun p => Op.pullPeer p.1 p.2)

/-- The operations one `ensemble(...)` invocation performs, in the order the
    source performs them (lines 191-251): push hangs, push crashes, then -
    primary only - build and move the archive, then pull every selected peer
    archive. -/
def ensembleOps (primary : Bool) (nodeId fuzzerId : String) (fs : FS) : List Op :=
  hangOps fs ++ crashOps fs
    ++ (if primary then pushOps nodeId fuzzerId fs ++ pullOps nodeId fuzzerId fs
        else [])

/-- Running one full sync cycle. -/
def runEnsemble (primary : Bool) (nodeId fuzzerId : String) (fs : FS) : FS :=
  (ensembleOps primary nodeId fuzzerId fs).foldl applyOp fs

/-- Every filesystem state visited while executing a list of operations,
    the initial one included: what a concurrently reading peer could
    observe. -/
def statesFrom (s : FS) : List Op → List FS
  | [] => [s]
  | op :: ops => s :: statesFrom (applyOp s op) ops

/-- The primitive operations of line 231's `shutil.move`, which branches on
    an environment fact the code does not control: whether `fuzzer_tmp.tgz`
    (in the process working directory) and the shared pool are on the same
    filesystem. Same filesystem: one atomic `os.rename`. Different
    filesystems: `copy2` opens and truncates the destination (every state of
    the chunked copy shows the slot as a zero-byte or incomplete file,
    represented by the unreadable blob), the copy completes, and the source
    is unlinked. -/
def moveOps (sameFs : Bool) (slot : String) : List Op :=
  if sameFs then [Op.moveTmp slot]
  else [Op.openSlot slot, Op.writeSlot slot, Op.removeTmp]

/-- Lines 213-231 with the filesystem-boundary fact explicit; `pushOps` is
    the same-filesystem instance. -/
def pushOpsFs (sameFs : Bool) (nodeId fuzzerId : String) (fs : FS) : List Op :=
  Op.tarOpen
    :: (nodeArchive nodeId fuzzerId fs).map (fun p => Op.tarAdd p.1 p.2)
    ++ moveOps sameFs (slotName nodeId)

/-- One `ensemble(...)` invocation with the filesystem-boundary fact
    explicit; `ensembleOps` is the same-filesystem instance. -/
def ensembleOpsFs (sameFs primary : Bool) (nodeId fuzzerId : String) (fs : FS) :
    List Op :=
  hangOps fs ++ crashOps fs
    ++ (if primary then pushOpsFs sameFs nodeId fuzzerId fs ++ pullOps nodeId fuzzerId fs
        else [])

/-- Running one full sync cycle with the filesystem-boundary fact
    explicit. -/
def runEnsembleFs (sameFs primary : Bool) (nodeId fuzzerId : String) (fs : FS) :
    FS :=
  (ensembleOpsFs sameFs primary nodeId fuzzerId fs).foldl applyOp fs

/-! Stats reporting (`populate_stats`, lines 157-168, and `reporter`,
lines 170-180). A stats file is `Option (List String)`: `none` models a
missing file, for which `open` raises `FileNotFoundError`. -/

/-- Python's `str.strip()`: whitespace removed from both ends. -/
def trimChars (cs : List Char) : List Char :=
  ((cs.dropWhile Char.isWhitespace).reverse.dropWhile Char.isWhitespace).reverse

/-- Python's `line.split(":", 1)`: the text before the first colon and the
    text after it; `none` when the line has no colon. -/
def splitFirstColon : List Char → Option (List Char × List Char)
  | [] => none
  | c :: cs =>
      if c = ':' then some ([], cs)
      else (splitFirstColon cs).map (fun p => (c :: p.1, p.2))

/-- One line of the stats file, split as the source does:
    `key = line.split(":", 1)[0].strip()`, `value = line.split(":", 1)[1].strip()`.
    A line with no colon makes `[1]` raise `IndexError`, modelled by `none`. -/
def splitKV (line : String) : Option (String × String) :=
  (splitFirstColon line.data).map
    (fun p => (String.mk (trimChars p.1), String.mk (trimChars p.2)))

/-- Line 166-167: `if key in self.stats: self.stats[key] = value` - a parsed
    pair updates the table only when the key is already recognized. -/
def updateStats (stats : List (String × Option String)) (k v : String) :
    List (String × Option String) :=
  if (getEntry stats k).isSome then setEntry stats k (some v) else stats

/-- Modelled from the spec: the initial stats table lives in the parent class
    `FuzzerFrontend` (`deepstate.core`), which is not under `src/`. Per the
    spec, the recognized key set is fixed - execs done, cycles completed,
    unique crashes, unique hangs - and each starts with no value. -/
def initStats : List (String × Option String) :=
  [("execs_done", none), ("cycles_done", none),
   ("unique_crashes", none), ("unique_hangs", none)]

/-- The parsing loop of `populate_stats`: read all lines (`none` file raises),
    split each on its first colon (raising on a colon-free line), and record
    recognized keys. -/
def populateStats (file : Option (List String))
    (stats : List (String × Option String)) :
    Except String (List (String × Option String)) :=
  match file with
  | none => .error "FileNotFoundError"
  | some lines =>
      lines.foldlM (fun st line =>
        match splitKV line with
        | none => .error "IndexError"
        | some kv => Except.ok (updateStats st kv.1 kv.2)) stats

/-- Modelled from the spec: surfacing a stat that was never populated is
    owned by the parent class `FuzzerFrontend` (not under `src/`); per the
    spec a required key absent from the stats file is an error surfaced to
    the caller, never silently defaulted. -/
def getStat (stats : List (String × Option String)) (k : String) :
    Except String String :=
  match getEntry stats k with
  | some (some v) => .ok v
  | _ => .error ("missing stat: " ++ k)

/-- The `reporter` of lines 170-180: populate the stats from the file, then
    return the fixed four-entry summary mapping. -/
def reporter (file : Option (List String)) :
    Except String (List (String × String)) := do
  let st ← populateStats file initStats
  let e ← getStat st "execs_done"
  let c ← getStat st "cycles_done"
  let uc ← getStat st "unique_crashes"
  let uh ← getStat st "unique_hangs"
  return [("Execs Done", e), ("Cycle Completed", c),
          ("Unique Crashes", uc), ("Unique Hangs", uh)]

/-! Seed intake (`pre_exec`, lines 79-84): for each staged file, try to move
it into the local `new_seeds/queue`; a failed move (for instance a claim
race lost to another primary) is caught by the bare `except` and logged. -/

/-- What happened to one staged seed file. -/
inductive SeedEvent
  | moved (f : String)
  | skipped (f : String)
deriving Repr, DecidableEq

/-- Line 82: `shutil.move(os.path.join(new_seed_remote, f), new_seed_queue)`.
    The boolean says whether the move succeeds; a failure raises, here as
    `Except.error`. -/
def moveSeed (ok : Bool) (f : String) (queue : List String) :
    Except String (List String) :=
  if ok then .ok (queue ++ [f]) else .error "move failed"

/-- One iteration of the staged-seed loop: the move is attempted inside
    `try`/`except`; an `Except.error` only logs a warning (recorded as a
    `skipped` event) and the loop continues with the next file. -/
def pullSeedsStep (st : List String × List SeedEvent) (p : String × Bool) :
    List String × List SeedEvent :=
  match moveSeed p.2 p.1 st.1 with
  | .ok q => (q, st.2 ++ [SeedEvent.moved p.1])
  | .error _ => (st.1, st.2 ++ [SeedEvent.skipped p.1])

/-- The staged-seed loop of lines 79-84. -/
def pullSeeds (remote : List (String × Bool)) (queue : List String) :
    List String × List SeedEvent :=
  remote.foldl pullSeedsStep (queue, [])

/-- The step of the sync-cycle sequence an operation belongs to:
    0 = publish hangs, 1 = publish crashes, 2 = archive and publish the
    corpus, 3 = ingest peer archives. -/
def phase : Op → Nat
  | .copyHang .. => 0
  | .copyCrash .. => 1
  | .tarOpen => 2
  | .tarAdd .. => 2
  | .moveTmp _ => 2
  | .openSlot _ => 2
  | .writeSlot _ => 2
  | .removeTmp => 2
  | .pullPeer .. => 3

/-! Concrete states used to witness the theorems on explicit inputs. The
node under scrutiny is node `"1"`; its output root also holds a directory
of node `"10"` (as peer ingestion deposits them), and the pool holds peer
archives of nodes `"2"` (intact), `"3"` (corrupt) and `"10"` (intact). -/

def sampleWorkerA : WorkerDir := ⟨"stats A", [("id:000001", "AAA")]⟩

def sampleWorkerB : WorkerDir := ⟨"stats B", [("id:000002", "BBB")]⟩

def sampleFS : FS :=
  { localDirs := [("fuzzer_1_0", sampleWorkerA), ("fuzzer_10_0", sampleWorkerB),
                  ("new_seeds", ⟨"", []⟩)]
    localHangs := [("hang1", "hangdata")]
    localCrashes := [("crash1", "crashdata")]
    poolHangs := []
    poolCrashes := []
    poolFiles := [("FuzzData_2.tgz", some [("fuzzer_2_0", sampleWorkerB)]),
                  ("FuzzData_3.tgz", none),
                  ("FuzzData_10.tgz", some [("fuzzer_10_0", sampleWorkerB)])]
    tmp := none }

/-- Like `sampleFS` but with every peer archive in the pool intact. -/
def sampleGoodFS : FS :=
  { sampleFS with
    poolFiles := [("FuzzData_2.tgz", some [("fuzzer_2_0", sampleWorkerB)]),
                  ("FuzzData_10.tgz", some [("fuzzer_10_0", sampleWorkerB)])] }

/-- The state of a cross-filesystem publish on `sampleFS` right after the
    fallback copy has opened and truncated the slot (the first six
    operations: both artifact copies, `tarOpen`, both `tarAdd`s, and
    `openSlot`): the moment a peer sees a zero-byte or partially written
    archive in the slot. -/
def midWriteFS : FS :=
  ((ensembleOpsFs false true "1" "0" sampleFS).take 6).foldl applyOp sampleFS

/-! Discriminators singling out which primitive operations write which part
of the shared state. -/

/-- Does the operation write the pool root (the archive slots)? Only the
    steps of line 231's `shutil.move` do: the same-filesystem rename, or the
    cross-filesystem fallback's truncate and copy. -/
def writesPool : Op → Bool
  | .moveTmp _ => true
  | .openSlot _ => true
  | .writeSlot _ => true
  | _ => false

def isCopyHang : Op → Bool
  | .copyHang .. => true
  | _ => false

def isCopyCrash : Op → Bool
  | .copyCrash .. => true
  | _ => false

/-! Helper lemmas about the association-list primitives. -/

theorem getEntry_setEntry_self {α : Type} (xs : List (String × α)) (k : String)
    (v : α) : getEntry (setEntry xs k v) k = some v := by
  induction xs with
  | nil => simp [getEntry, setEntry]
  | cons p rest ih =>
      obtain ⟨a, b⟩ := p
      by_cases h : a = k
      · simp [getEntry, setEntry, h]
      · simp [getEntry, setEntry, h, ih]

theorem getEntry_setEntry_ne {α : Type} (xs : List (String × α)) (k k' : String)
    (v : α) (h : k' ≠ k) : getEntry (setEntry xs k v) k' = getEntry xs k' := by
  induction xs with
  | nil => simp [getEntry, setEntry, Ne.symm h]
  | cons p rest ih =>
      obtain ⟨a, b⟩ := p
      by_cases hp : a = k
      · subst hp
        simp [getEntry, setEntry, Ne.symm h]
      · simp [getEntry, setEntry, hp, ih]

/-- Pushing a whole directory listing into a pool directory: a key present in
    the listing ends up present in the pool, with a content drawn from the
    listing. -/
theorem getEntry_foldl_setEntry_not_mem {α : Type} (l : List (String × α))
    (pool : List (String × α)) (k : String) (h : k ∉ l.map Prod.fst) :
    getEntry (l.foldl (fun ac p => setEntry ac p.1 p.2) pool) k = getEntry pool k := by
  induction l generalizing pool with
  | nil => rfl
  | cons p rest ih =>
      simp only [List.map_cons, List.mem_cons] at h
      push_neg at h
      rw [List.foldl_cons, ih _ h.2, getEntry_setEntry_ne pool p.1 k p.2 h.1]

theorem getEntry_foldl_setEntry_mem {α : Type} (l : List (String × α))
    (pool : List (String × α)) (k : String) (hm : k ∈ l.map Prod.fst) :
    ∃ c, (k, c) ∈ l ∧
      getEntry (l.foldl (fun ac p => setEntry ac p.1 p.2) pool) k = some c := by
  induction l generalizing pool with
  | nil => simp at hm
  | cons p rest ih =>
      by_cases hk : k ∈ rest.map Prod.fst
      · obtain ⟨c, hc, hget⟩ := ih (setEntry pool p.1 p.2) hk
        exact ⟨c, List.mem_cons_of_mem _ hc, by rw [List.foldl_cons]; exact hget⟩
      · have hp : k = p.1 := by
          rcases (by simpa using hm : k = p.1 ∨ ∃ x, (k, x) ∈ rest) with h | ⟨x, hx⟩
          · exact h
          · exact absurd (List.mem_map.mpr ⟨(k, x), hx, rfl⟩) hk
        refine ⟨p.2, by rw [hp]; exact List.mem_cons_self _ _, ?_⟩
        rw [List.foldl_cons, getEntry_foldl_setEntry_not_mem _ _ _ hk, hp,
          getEntry_setEntry_self]

theorem applyOp_localDirs_localHangs_localCrashes (s : FS) (op : Op) :
    (applyOp s op).localHangs = s.localHangs ∧
      (applyOp s op).localCrashes = s.localCrashes := by
  cases op with
  | tarAdd d w =>
      cases h : s.tmp with
      | none => simp [applyOp, h]
      | some b => cases b <;> simp [applyOp, h]
  | pullPeer f b => cases b <;> simp [applyOp]
  | _ => simp [applyOp]

theorem applyOp_poolFiles (s : FS) (op : Op) (h : writesPool op = false) :
    (applyOp s op).poolFiles = s.poolFiles := by
  cases op with
  | moveTmp slot => simp [writesPool] at h
  | openSlot slot => simp [writesPool] at h
  | writeSlot slot => simp [writesPool] at h
  | tarAdd d w =>
      cases htmp : s.tmp with
      | none => simp [applyOp, htmp]
      | some b => cases b <;> simp [applyOp, htmp]
  | pullPeer f b => cases b <;> simp [applyOp]
  | _ => simp [applyOp]

theorem applyOp_poolHangs (s : FS) (op : Op) (h : isCopyHang op = false) :
    (applyOp s op).poolHangs = s.poolHangs := by
  cases op with
  | copyHang f c => simp [isCopyHang] at h
  | tarAdd d w =>
      cases htmp : s.tmp with
      | none => simp [applyOp, htmp]
      | some b => cases b <;> simp [applyOp, htmp]
  | pullPeer f b => cases b <;> simp [applyOp]
  | _ => simp [applyOp]

theorem applyOp_poolCrashes (s : FS) (op : Op) (h : isCopyCrash op = false) :
    (applyOp s op).poolCrashes = s.poolCrashes := by
  cases op with
  | copyCrash f c => simp [isCopyCrash] at h
  | tarAdd d w =>
      cases htmp : s.tmp with
      | none => simp [applyOp, htmp]
      | some b => cases b <;> simp [applyOp, htmp]
  | pullPeer f b => cases b <;> simp [applyOp]
  | _ => simp [applyOp]

/-- A projection of the state untouched by every operation of a list is
    untouched by folding the list. -/
theorem foldl_proj {γ : Type} (proj : FS → γ) (ops : List Op) (s : FS)
    (h : ∀ t : FS, ∀ op ∈ ops, proj (applyOp t op) = proj t) :
    proj (ops.foldl applyOp s) = proj s := by
  induction ops generalizing s with
  | nil => rfl
  | cons op rest ih =>
      rw [List.foldl_cons, ih _ (fun t o ho => h t o (List.mem_cons_of_mem _ ho)),
        h s op (List.mem_cons_self _ _)]

/-- The initial state is always among the visited states. -/
theorem self_mem_statesFrom (s : FS) (ops : List Op) : s ∈ statesFrom s ops := by
  cases ops with
  | nil => exact List.mem_singleton.mpr rfl
  | cons op rest => exact List.mem_cons_self _ _

/-- A projection of the state untouched by every operation of a list is the
    same in every state visited while folding the list. -/
theorem statesFrom_proj {γ : Type} (proj : FS → γ) (ops : List Op) (s : FS)
    (h : ∀ t : FS, ∀ op ∈ ops, proj (applyOp t op) = proj t) :
    ∀ t ∈ statesFrom s ops, proj t = proj s := by
  induction ops generalizing s with
  | nil =>
      intro t ht
      have : t = s := by simpa [statesFrom] using ht
      rw [this]
  | cons op rest ih =>
      intro t ht
      rcases List.mem_cons.mp ht with rfl | ht'
      · rfl
      · rw [ih (applyOp s op) (fun u o ho => h u o (List.mem_cons_of_mem _ ho)) t ht',
          h s op (List.mem_cons_self _ _)]

/-- Membership in the visited states of a concatenation. -/
theorem mem_statesFrom_append (s : FS) (l1 l2 : List Op) (t : FS) :
    t ∈ statesFrom s (l1 ++ l2) ↔
      t ∈ statesFrom s l1 ∨ t ∈ statesFrom (l1.foldl applyOp s) l2 := by
  induction l1 generalizing s with
  | nil =>
      simp only [List.nil_append, List.foldl_nil]
      constructor
      · intro h; exact Or.inr h
      · intro h
        rcases h with h | h
        · have : t = s := by simpa [statesFrom] using h
          rw [this]
          exact self_mem_statesFrom _ _
        · exact h
  | cons op rest ih =>
      simp only [List.cons_append, statesFrom, List.foldl_cons, List.mem_cons,
        List.append_eq]
      rw [ih (applyOp s op)]
      tauto

/-! Computation lemmas for the four segments of a sync cycle. -/

/-- Folding the hang-copy segment pushes the whole listing into the pool's
    `hangs` directory and changes nothing else. -/
theorem foldl_hangOps (l : List (String × String)) (s : FS) :
    (l.map (fun p => Op.copyHang p.1 p.2)).foldl applyOp s =
      { s with poolHangs := l.foldl (fun ac p => setEntry ac p.1 p.2) s.poolHangs } := by
  induction l generalizing s with
  | nil => rfl
  | cons p rest ih => simp [applyOp, List.foldl_cons, ih]

theorem foldl_crashOps (l : List (String × String)) (s : FS) :
    (l.map (fun p => Op.copyCrash p.1 p.2)).foldl applyOp s =
      { s with poolCrashes := l.foldl (fun ac p => setEntry ac p.1 p.2) s.poolCrashes } := by
  induction l generalizing s with
  | nil => rfl
  | cons p rest ih => simp [applyOp, List.foldl_cons, ih]

/-- Folding the `tar.add` segment appends the selected directories to the
    temporary archive being assembled and touches nothing else. -/
theorem foldl_tarAdd (sel : Archive) (s : FS) (acc : Archive)
    (h : s.tmp = some (some acc)) :
    (sel.map (fun p => Op.tarAdd p.1 p.2)).foldl applyOp s =
      { s with tmp := some (some (acc ++ sel)) } := by
  induction sel generalizing s acc with
  | nil => simp [← h]
  | cons p rest ih =>
      rw [List.map_cons, List.foldl_cons]
      have happ : applyOp s (Op.tarAdd p.1 p.2) =
          { s with tmp := some (some (acc ++ [p])) } := by
        simp [applyOp, h]
      rw [happ, ih _ (acc ++ [p]) rfl]
      simp

/-- Folding the whole archive-publish segment: the node's slot in the pool
    receives, in one operation, the complete archive of the selected
    directories; the temporary file is gone afterwards. -/
theorem foldl_pushOps (nodeId fuzzerId : String) (fs s : FS) :
    (pushOps nodeId fuzzerId fs).foldl applyOp s =
      { s with
        poolFiles := setEntry s.poolFiles (slotName nodeId)
          (some (nodeArchive nodeId fuzzerId fs)),
        tmp := none } := by
  rw [pushOps, List.foldl_append, List.foldl_cons, List.foldl_cons]
  have h1 : applyOp s Op.tarOpen = { s with tmp := some (some []) } := rfl
  rw [h1, foldl_tarAdd (nodeArchive nodeId fuzzerId fs) _ [] rfl]
  simp [applyOp]

/-- Folding the pull segment when every pulled blob is intact: each
    per-archive body ends with `os.remove("fuzzer_tmp.tgz")`, so no
    temporary copy survives. -/
theorem foldl_pullPeer_tmp (ps : List (String × Blob)) (s : FS)
    (h : ∀ p ∈ ps, p.2 ≠ none) (h0 : s.tmp = none) :
    ((ps.map (fun p => Op.pullPeer p.1 p.2)).foldl applyOp s).tmp = none := by
  induction ps generalizing s with
  | nil => exact h0
  | cons p rest ih =>
      rw [List.map_cons, List.foldl_cons]
      rcases hb : p.2 with _ | a
      · exact absurd hb (h p (List.mem_cons_self _ _))
      · exact ih _ (fun q hq => h q (List.mem_cons_of_mem _ hq))
          (by simp [applyOp, hb])

/-! Membership characterizations for the pull segment. -/

theorem pullPeer_mem_pullOps (n i f : String) (b : Blob) (fs : FS) :
    Op.pullPeer f b ∈ pullOps n i fs ↔
      ((f, b) ∈ poolAfterPublish n i fs ∧ peerSelected n f = true) := by
  simp [pullOps, List.mem_map, List.mem_filter]

/-- The pull loop is the only place a peer archive is handled: no pull
    operation sits in the artifact-publish or archive-publish segments. -/
theorem pullPeer_mem_ensembleOps (n i f : String) (b : Blob) (fs : FS) :
    Op.pullPeer f b ∈ ensembleOps true n i fs ↔
      ((f, b) ∈ poolAfterPublish n i fs ∧ peerSelected n f = true) := by
  rw [← pullPeer_mem_pullOps n i f b fs]
  simp only [ensembleOps, if_pos, List.mem_append]
  constructor
  · rintro ((h | h) | h | h)
    · exact absurd h (by simp [hangOps, List.mem_map])
    · exact absurd h (by simp [crashOps, List.mem_map])
    · exact absurd h (by simp [pushOps, List.mem_append, List.mem_map])
    · exact h
  · intro h; exact Or.inr (Or.inr h)

/-! Which operations can write the pool root. -/

theorem writesPool_false_of_mem_artifact (fs : FS) :
    ∀ op ∈ hangOps fs ++ crashOps fs, writesPool op = false := by
  intro op h
  rcases List.mem_append.mp h with h | h
  · obtain ⟨p, hp, rfl⟩ := List.mem_map.mp h; rfl
  · obtain ⟨p, hp, rfl⟩ := List.mem_map.mp h; rfl

theorem writesPool_false_of_mem_tarSegment (n i : String) (fs : FS) :
    ∀ op ∈ Op.tarOpen :: (nodeArchive n i fs).map (fun p => Op.tarAdd p.1 p.2),
      writesPool op = false := by
  intro op h
  rcases List.mem_cons.mp h with rfl | h
  · rfl
  · obtain ⟨p, hp, rfl⟩ := List.mem_map.mp h; rfl

theorem writesPool_false_of_mem_pullOps (n i : String) (fs : FS) :
    ∀ op ∈ pullOps n i fs, writesPool op = false := by
  intro op h
  obtain ⟨p, hp, rfl⟩ := List.mem_map.mp h; rfl

/-- The trailing segments (`a :: b ++ c` style decomposition) of a primary
    cycle. -/
theorem ensembleOps_true (n i : String) (fs : FS) :
    ensembleOps true n i fs =
      (hangOps fs ++ crashOps fs) ++ (pushOps n i fs ++ pullOps n i fs) := rfl

theorem runEnsemble_true_eq (n i : String) (fs : FS) :
    runEnsemble true n i fs =
      (pullOps n i fs).foldl applyOp
        ((pushOps n i fs).foldl applyOp
          ((hangOps fs ++ crashOps fs).foldl applyOp fs)) := by
  rw [runEnsemble, ensembleOps_true, List.foldl_append, List.foldl_append]

theorem artifact_foldl_poolFiles (fs : FS) :
    ((hangOps fs ++ crashOps fs).foldl applyOp fs).poolFiles = fs.poolFiles :=
  foldl_proj (fun u => u.poolFiles) _ fs
    (fun t op ho => applyOp_poolFiles t op (writesPool_false_of_mem_artifact fs op ho))

/-- The pool root after a primary's full cycle: only the node's own slot has
    changed, and it holds the complete archive. -/
theorem runEnsemble_poolFiles (n i : String) (fs : FS) :
    (runEnsemble true n i fs).poolFiles =
      setEntry fs.poolFiles (slotName n) (some (nodeArchive n i fs)) := by
  have hpull : ∀ s : FS, ((pullOps n i fs).foldl applyOp s).poolFiles = s.poolFiles :=
    fun s => foldl_proj (fun u => u.poolFiles) _ s
      (fun t op ho => applyOp_poolFiles t op (writesPool_false_of_mem_pullOps n i fs op ho))
  rw [runEnsemble_true_eq, hpull, foldl_pushOps]
  show setEntry ((hangOps fs ++ crashOps fs).foldl applyOp fs).poolFiles
      (slotName n) (some (nodeArchive n i fs)) = _
  rw [artifact_foldl_poolFiles]

theorem runEnsemble_slot (n i : String) (fs : FS) :
    getEntry (runEnsemble true n i fs).poolFiles (slotName n) =
      some (some (nodeArchive n i fs)) := by
  rw [runEnsemble_poolFiles, getEntry_setEntry_self]

/-- Every state visible during a primary's cycle shows, in the node's slot,
    either the previous cycle's content or the complete new archive. -/
theorem slot_observables (n i : String) (fs : FS) :
    ∀ t ∈ statesFrom fs (ensembleOps true n i fs),
      getEntry t.poolFiles (slotName n) = getEntry fs.poolFiles (slotName n) ∨
      getEntry t.poolFiles (slotName n) = some (some (nodeArchive n i fs)) := by
  intro t ht
  rw [ensembleOps_true] at ht
  set sA := (hangOps fs ++ crashOps fs).foldl applyOp fs with hsA
  rcases (mem_statesFrom_append fs _ _ t).mp ht with h | h
  · left
    rw [statesFrom_proj (fun u => u.poolFiles) _ fs
      (fun u op ho => applyOp_poolFiles u op (writesPool_false_of_mem_artifact fs op ho)) t h]
  · rcases (mem_statesFrom_append sA (pushOps n i fs) (pullOps n i fs) t).mp h with h2 | h2
    · replace h2 : t ∈ statesFrom sA
          ((Op.tarOpen :: (nodeArchive n i fs).map (fun p => Op.tarAdd p.1 p.2))
            ++ [Op.moveTmp (slotName n)]) := h2
      rcases (mem_statesFrom_append sA _ _ t).mp h2 with h4 | h4
      · left
        rw [statesFrom_proj (fun u => u.poolFiles) _ sA
          (fun u op ho => applyOp_poolFiles u op
            (writesPool_false_of_mem_tarSegment n i fs op ho)) t h4,
          hsA, artifact_foldl_poolFiles]
      · have hB0 : (Op.tarOpen :: (nodeArchive n i fs).map
            (fun p => Op.tarAdd p.1 p.2)).foldl applyOp sA =
            { sA with tmp := some (some (nodeArchive n i fs)) } := by
          rw [List.foldl_cons]
          have h5 : applyOp sA Op.tarOpen = { sA with tmp := some (some []) } := rfl
          rw [h5, foldl_tarAdd _ _ [] rfl]
          simp
        rw [hB0] at h4
        rcases (by simpa [statesFrom] using h4 :
            t = { sA with tmp := some (some (nodeArchive n i fs)) } ∨
            t = applyOp { sA with tmp := some (some (nodeArchive n i fs)) }
                  (Op.moveTmp (slotName n))) with rfl | rfl
        · left
          show getEntry sA.poolFiles (slotName n) = _
          rw [hsA, artifact_foldl_poolFiles]
        · right
          show getEntry (setEntry sA.poolFiles (slotName n)
            (some (nodeArchive n i fs))) (slotName n) = _
          rw [getEntry_setEntry_self]
    · right
      rw [statesFrom_proj (fun u => u.poolFiles) _ _
        (fun u op ho => applyOp_poolFiles u op
          (writesPool_false_of_mem_pullOps n i fs op ho)) t h2,
        foldl_pushOps]
      show getEntry (setEntry sA.poolFiles (slotName n)
        (some (nodeArchive n i fs))) (slotName n) = _
      rw [getEntry_setEntry_self]

/-- Exactly one operation of a primary cycle writes the pool root: the
    single `shutil.move` onto the node's slot. -/
theorem ensembleOps_filter_writesPool (n i : String) (fs : FS) :
    (ensembleOps true n i fs).filter writesPool = [Op.moveTmp (slotName n)] := by
  have h1 : (hangOps fs ++ crashOps fs).filter writesPool = [] :=
    List.filter_eq_nil_iff.mpr
      (fun a ha => by simp [writesPool_false_of_mem_artifact fs a ha])
  have h2 : (pushOps n i fs).filter writesPool = [Op.moveTmp (slotName n)] := by
    rw [pushOps, List.filter_append]
    have h2a : (Op.tarOpen :: (nodeArchive n i fs).map
        (fun p => Op.tarAdd p.1 p.2)).filter writesPool = [] :=
      List.filter_eq_nil_iff.mpr
        (fun a ha => by simp [writesPool_false_of_mem_tarSegment n i fs a ha])
    rw [h2a]
    rfl
  have h3 : (pullOps n i fs).filter writesPool = [] :=
    List.filter_eq_nil_iff.mpr
      (fun a ha => by simp [writesPool_false_of_mem_pullOps n i fs a ha])
  rw [ensembleOps_true, List.filter_append, h1, List.filter_append, h2, h3]
  rfl

/-! Run-level facts about the artifact directories and the temporary file. -/

theorem isCopyHang_false_of_mem_tail (primary : Bool) (n i : String) (fs : FS) :
    ∀ op ∈ crashOps fs ++ (if primary then pushOps n i fs ++ pullOps n i fs else []),
      isCopyHang op = false := by
  intro op h
  rcases List.mem_append.mp h with h | h
  · obtain ⟨p, hp, rfl⟩ := List.mem_map.mp h; rfl
  · cases primary with
    | false => simp at h
    | true =>
        rcases List.mem_append.mp (by simpa using h) with h | h
        · rcases List.mem_append.mp h with h | h
          · rcases List.mem_cons.mp h with rfl | h
            · rfl
            · obtain ⟨p, hp, rfl⟩ := List.mem_map.mp h; rfl
          · rw [List.mem_singleton.mp h]; rfl
        · obtain ⟨p, hp, rfl⟩ := List.mem_map.mp h; rfl

theorem isCopyCrash_false_of_mem_hangOps (fs : FS) :
    ∀ op ∈ hangOps fs, isCopyCrash op = false := by
  intro op h
  obtain ⟨p, hp, rfl⟩ := List.mem_map.mp h; rfl

theorem isCopyCrash_false_of_mem_tail (primary : Bool) (n i : String) (fs : FS) :
    ∀ op ∈ (if primary then pushOps n i fs ++ pullOps n i fs else []),
      isCopyCrash op = false := by
  intro op h
  cases primary with
  | false => simp at h
  | true =>
      rcases List.mem_append.mp (by simpa using h) with h | h
      · rcases List.mem_append.mp h with h | h
        · rcases List.mem_cons.mp h with rfl | h
          · rfl
          · obtain ⟨p, hp, rfl⟩ := List.mem_map.mp h; rfl
        · rw [List.mem_singleton.mp h]; rfl
      · obtain ⟨p, hp, rfl⟩ := List.mem_map.mp h; rfl

theorem runEnsemble_localHangs (primary : Bool) (n i : String) (fs : FS) :
    (runEnsemble primary n i fs).localHangs = fs.localHangs :=
  foldl_proj (fun u => u.localHangs) _ fs
    (fun t op _ => (applyOp_localDirs_localHangs_localCrashes t op).1)

theorem runEnsemble_localCrashes (primary : Bool) (n i : String) (fs : FS) :
    (runEnsemble primary n i fs).localCrashes = fs.localCrashes :=
  foldl_proj (fun u => u.localCrashes) _ fs
    (fun t op _ => (applyOp_localDirs_localHangs_localCrashes t op).2)

/-- After any cycle, the pool's `hangs` directory is the old one with the
    worker's whole local hang listing pushed into it. -/
theorem runEnsemble_poolHangs (primary : Bool) (n i : String) (fs : FS) :
    (runEnsemble primary n i fs).poolHangs =
      fs.localHangs.foldl (fun ac p => setEntry ac p.1 p.2) fs.poolHangs := by
  have hsplit : ensembleOps primary n i fs =
      hangOps fs ++ (crashOps fs ++
        (if primary then pushOps n i fs ++ pullOps n i fs else [])) := by
    rw [ensembleOps, List.append_assoc]
  rw [runEnsemble, hsplit, List.foldl_append]
  rw [foldl_proj (fun u => u.poolHangs) _ _
    (fun t op ho => applyOp_poolHangs t op
      (isCopyHang_false_of_mem_tail primary n i fs op ho))]
  show ((fs.localHangs.map (fun p => Op.copyHang p.1 p.2)).foldl applyOp fs).poolHangs = _
  rw [foldl_hangOps]

/-- After any cycle, the pool's `crashes` directory is the old one with the
    worker's whole local crash listing pushed into it. -/
theorem runEnsemble_poolCrashes (primary : Bool) (n i : String) (fs : FS) :
    (runEnsemble primary n i fs).poolCrashes =
      fs.localCrashes.foldl (fun ac p => setEntry ac p.1 p.2) fs.poolCrashes := by
  rw [runEnsemble]
  rw [show ensembleOps primary n i fs = (hangOps fs ++ crashOps fs) ++
      (if primary then pushOps n i fs ++ pullOps n i fs else []) from by
    rw [ensembleOps]]
  rw [List.foldl_append, List.foldl_append]
  rw [foldl_proj (fun u => u.poolCrashes) _ _
    (fun t op ho => applyOp_poolCrashes t op
      (isCopyCrash_false_of_mem_tail primary n i fs op ho))]
  have h1 : ((hangOps fs).foldl applyOp fs) = { fs with
      poolHangs := fs.localHangs.foldl (fun ac p => setEntry ac p.1 p.2) fs.poolHangs } := by
    show ((fs.localHangs.map (fun p => Op.copyHang p.1 p.2)).foldl applyOp fs) = _
    rw [foldl_hangOps]
  rw [h1]
  show ((fs.localCrashes.map (fun p => Op.copyCrash p.1 p.2)).foldl applyOp _).poolCrashes = _
  rw [foldl_crashOps]

/-- When every selected peer archive is intact, no temporary archive copy
    survives the cycle. -/
theorem runEnsemble_tmp_of_intact (n i : String) (fs : FS)
    (h : ∀ p ∈ poolAfterPublish n i fs, peerSelected n p.1 = true → p.2 ≠ none) :
    (runEnsemble true n i fs).tmp = none := by
  rw [runEnsemble_true_eq]
  have h0 : ((pushOps n i fs).foldl applyOp
      ((hangOps fs ++ crashOps fs).foldl applyOp fs)).tmp = none := by
    rw [foldl_pushOps]
  exact foldl_pullPeer_tmp _ _
    (fun p hp => h p (List.mem_filter.mp hp).1 (List.mem_filter.mp hp).2) h0

/-! Phase bookkeeping for the ordering of one cycle. -/

theorem sorted_le_of_const {l : List Nat} {c : Nat} (h : ∀ x ∈ l, x = c) :
    l.Sorted (· ≤ ·) := by
  induction l with
  | nil => exact List.sorted_nil
  | cons a rest ih =>
      refine List.sorted_cons.mpr
        ⟨fun b hb => ?_, ih (fun x hx => h x (List.mem_cons_of_mem _ hx))⟩
      rw [h a (List.mem_cons_self _ _), h b (List.mem_cons_of_mem _ hb)]

theorem phase_mem_hangOps (fs : FS) :
    ∀ x ∈ (hangOps fs).map phase, x = 0 := by
  intro x hx
  obtain ⟨op, hop, rfl⟩ := List.mem_map.mp hx
  obtain ⟨p, hp, rfl⟩ := List.mem_map.mp hop
  rfl

theorem phase_mem_crashOps (fs : FS) :
    ∀ x ∈ (crashOps fs).map phase, x = 1 := by
  intro x hx
  obtain ⟨op, hop, rfl⟩ := List.mem_map.mp hx
  obtain ⟨p, hp, rfl⟩ := List.mem_map.mp hop
  rfl

theorem phase_mem_pushOps (n i : String) (fs : FS) :
    ∀ x ∈ (pushOps n i fs).map phase, x = 2 := by
  intro x hx
  obtain ⟨op, hop, rfl⟩ := List.mem_map.mp hx
  rcases List.mem_append.mp hop with h | h
  · rcases List.mem_cons.mp h with rfl | h
    · rfl
    · obtain ⟨p, hp, rfl⟩ := List.mem_map.mp h; rfl
  · rw [List.mem_singleton.mp h]; rfl

theorem phase_mem_pullOps (n i : String) (fs : FS) :
    ∀ x ∈ (pullOps n i fs).map phase, x = 3 := by
  intro x hx
  obtain ⟨op, hop, rfl⟩ := List.mem_map.mp hx
  obtain ⟨p, hp, rfl⟩ := List.mem_map.mp hop
  rfl

theorem ensembleOps_false (n i : String) (fs : FS) :
    ensembleOps false n i fs = hangOps fs ++ crashOps fs := by
  show (hangOps fs ++ crashOps fs) ++ [] = _
  rw [List.append_nil]

/-- The phase sequence of any cycle's operation list is monotone: hangs,
    then crashes, then archive publish, then peer ingestion. -/
theorem ensembleOps_phases_sorted (primary : Bool) (n i : String) (fs : FS) :
    ((ensembleOps primary n i fs).map phase).Sorted (· ≤ ·) := by
  have hart : ((hangOps fs ++ crashOps fs).map phase).Sorted (· ≤ ·) := by
    rw [List.map_append]
    refine List.pairwise_append.mpr
      ⟨sorted_le_of_const (phase_mem_hangOps fs),
       sorted_le_of_const (phase_mem_crashOps fs), fun a ha b hb => ?_⟩
    rw [phase_mem_hangOps fs a ha, phase_mem_crashOps fs b hb]
    exact Nat.zero_le 1
  have hartbound : ∀ a ∈ (hangOps fs ++ crashOps fs).map phase, a ≤ 1 := by
    intro a ha
    rw [List.map_append] at ha
    rcases List.mem_append.mp ha with h | h
    · rw [phase_mem_hangOps fs a h]; exact Nat.zero_le 1
    · rw [phase_mem_crashOps fs a h]
  cases primary with
  | false => rw [ensembleOps_false]; exact hart
  | true =>
      rw [ensembleOps_true, List.map_append]
      refine List.pairwise_append.mpr ⟨hart, ?_, ?_⟩
      · rw [List.map_append]
        refine List.pairwise_append.mpr
          ⟨sorted_le_of_const (phase_mem_pushOps n i fs),
           sorted_le_of_const (phase_mem_pullOps n i fs), fun a ha b hb => ?_⟩
        rw [phase_mem_pushOps n i fs a ha, phase_mem_pullOps n i fs b hb]
        exact Nat.le_succ 2
      · intro a ha b hb
        have ha1 := hartbound a ha
        rw [List.map_append] at hb
        rcases List.mem_append.mp hb with h | h
        · rw [phase_mem_pushOps n i fs b h]; omega
        · rw [phase_mem_pullOps n i fs b h]; omega

/-- Unrolling the seed-intake fold with explicit accumulators. -/
theorem pullSeeds_foldl (remote : List (String × Bool)) (q0 : List String)
    (e0 : List SeedEvent) :
    remote.foldl pullSeedsStep (q0, e0) =
      (q0 ++ (remote.filter (fun p => p.2)).map (fun p => p.1),
       e0 ++ remote.map
        (fun p => if p.2 then SeedEvent.moved p.1 else SeedEvent.skipped p.1)) := by
  induction remote generalizing q0 e0 with
  | nil => simp
  | cons p rest ih =>
      rw [List.foldl_cons]
      cases hb : p.2 with
      | true =>
          have hstep : pullSeedsStep (q0, e0) p =
              (q0 ++ [p.1], e0 ++ [SeedEvent.moved p.1]) := by
            simp [pullSeedsStep, moveSeed, hb]
          rw [hstep, ih]
          simp [List.filter_cons, hb]
      | false =>
          have hstep : pullSeedsStep (q0, e0) p =
              (q0, e0 ++ [SeedEvent.skipped p.1]) := by
            simp [pullSeedsStep, moveSeed, hb]
          rw [hstep, ih]
          simp [List.filter_cons, hb]

/-! The publish step under both branches of `shutil.move`. -/

theorem setEntry_setEntry_self {α : Type} (xs : List (String × α)) (k : String)
    (v v' : α) : setEntry (setEntry xs k v) k v' = setEntry xs k v' := by
  induction xs with
  | nil => simp [setEntry]
  | cons p rest ih =>
      obtain ⟨a, b⟩ := p
      by_cases h : a = k
      · simp [setEntry, h]
      · simp [setEntry, h, ih]

/-- The same-filesystem instance of the explicit model is the base model. -/
theorem ensembleOpsFs_sameFs (primary : Bool) (n i : String) (fs : FS) :
    ensembleOpsFs true primary n i fs = ensembleOps primary n i fs := rfl

/-- Folding the cross-filesystem fallback of the move: truncate, copy, and
    unlink collapse to the same end state as the rename. -/
theorem foldl_moveOps_false (slot : String) (s : FS) (a : Archive)
    (h : s.tmp = some (some a)) :
    (moveOps false slot).foldl applyOp s =
      { s with poolFiles := setEntry s.poolFiles slot (some a), tmp := none } := by
  show ([Op.openSlot slot, Op.writeSlot slot, Op.removeTmp]).foldl applyOp s = _
  simp [applyOp, h, setEntry_setEntry_self]

/-- Folding the whole archive-publish segment, for either filesystem layout:
    the end state is the same - slot overwritten with the complete archive,
    temporary file gone. -/
theorem foldl_pushOpsFs (sameFs : Bool) (n i : String) (fs s : FS) :
    (pushOpsFs sameFs n i fs).foldl applyOp s =
      { s with
        poolFiles := setEntry s.poolFiles (slotName n)
          (some (nodeArchive n i fs)),
        tmp := none } := by
  cases sameFs with
  | true =>
      show (pushOps n i fs).foldl applyOp s = _
      exact foldl_pushOps n i fs s
  | false =>
      show ((Op.tarOpen :: (nodeArchive n i fs).map (fun p => Op.tarAdd p.1 p.2))
          ++ moveOps false (slotName n)).foldl applyOp s = _
      rw [List.foldl_append, List.foldl_cons]
      have h1 : applyOp s Op.tarOpen = { s with tmp := some (some []) } := rfl
      rw [h1, foldl_tarAdd (nodeArchive n i fs) _ [] rfl,
        foldl_moveOps_false (slotName n) _ (nodeArchive n i fs) (by simp)]

/-- For either filesystem layout, the cycle ends with the complete new
    archive in the node's slot. -/
theorem runEnsembleFs_slot (sameFs : Bool) (n i : String) (fs : FS) :
    getEntry (runEnsembleFs sameFs true n i fs).poolFiles (slotName n) =
      some (some (nodeArchive n i fs)) := by
  have hpull : ∀ s : FS,
      ((pullOps n i fs).foldl applyOp s).poolFiles = s.poolFiles :=
    fun s => foldl_proj (fun u => u.poolFiles) _ s
      (fun t op ho => applyOp_poolFiles t op
        (writesPool_false_of_mem_pullOps n i fs op ho))
  show getEntry (((hangOps fs ++ crashOps fs)
      ++ (pushOpsFs sameFs n i fs ++ pullOps n i fs)).foldl
        applyOp fs).poolFiles (slotName n) = _
  rw [List.foldl_append, List.foldl_append, hpull, foldl_pushOpsFs]
  show getEntry (setEntry ((hangOps fs ++ crashOps fs).foldl applyOp
      fs).poolFiles (slotName n) (some (nodeArchive n i fs))) (slotName n) = _
  rw [getEntry_setEntry_self]

/-- Every state visible during a primary's cycle shows, in the node's slot,
    the previous cycle's content, the complete new archive, or - only
    possible across filesystems - the unreadable zero-byte/partially written
    file of the fallback copy. -/
theorem slot_observables_fs (sameFs : Bool) (n i : String) (fs : FS) :
    ∀ t ∈ statesFrom fs (ensembleOpsFs sameFs true n i fs),
      getEntry t.poolFiles (slotName n) = getEntry fs.poolFiles (slotName n) ∨
      getEntry t.poolFiles (slotName n) = some none ∨
      getEntry t.poolFiles (slotName n) = some (some (nodeArchive n i fs)) := by
  cases sameFs with
  | true =>
      intro t ht
      rw [ensembleOpsFs_sameFs] at ht
      rcases slot_observables n i fs t ht with h | h
      · exact Or.inl h
      · exact Or.inr (Or.inr h)
  | false =>
      intro t ht
      replace ht : t ∈ statesFrom fs ((hangOps fs ++ crashOps fs)
          ++ (pushOpsFs false n i fs ++ pullOps n i fs)) := ht
      set sA := (hangOps fs ++ crashOps fs).foldl applyOp fs with hsA
      rcases (mem_statesFrom_append fs _ _ t).mp ht with h | h
      · left
        rw [statesFrom_proj (fun u => u.poolFiles) _ fs
          (fun u op ho => applyOp_poolFiles u op
            (writesPool_false_of_mem_artifact fs op ho)) t h]
      · rcases (mem_statesFrom_append sA (pushOpsFs false n i fs)
            (pullOps n i fs) t).mp h with h2 | h2
        · replace h2 : t ∈ statesFrom sA
              ((Op.tarOpen :: (nodeArchive n i fs).map
                  (fun p => Op.tarAdd p.1 p.2))
                ++ [Op.openSlot (slotName n), Op.writeSlot (slotName n),
                    Op.removeTmp]) := h2
          rcases (mem_statesFrom_append sA _ _ t).mp h2 with h4 | h4
          · left
            rw [statesFrom_proj (fun u => u.poolFiles) _ sA
              (fun u op ho => applyOp_poolFiles u op
                (writesPool_false_of_mem_tarSegment n i fs op ho)) t h4,
              hsA, artifact_foldl_poolFiles]
          · have hB0 : (Op.tarOpen :: (nodeArchive n i fs).map
                (fun p => Op.tarAdd p.1 p.2)).foldl applyOp sA =
                { sA with tmp := some (some (nodeArchive n i fs)) } := by
              rw [List.foldl_cons]
              have h5 : applyOp sA Op.tarOpen =
                  { sA with tmp := some (some []) } := rfl
              rw [h5, foldl_tarAdd _ _ [] rfl]
              simp
            rw [hB0] at h4
            rcases (by simpa [statesFrom] using h4 :
                t = { sA with tmp := some (some (nodeArchive n i fs)) } ∨
                t = applyOp { sA with tmp := some (some (nodeArchive n i fs)) }
                      (Op.openSlot (slotName n)) ∨
                t = applyOp (applyOp
                      { sA with tmp := some (some (nodeArchive n i fs)) }
                      (Op.openSlot (slotName n))) (Op.writeSlot (slotName n)) ∨
                t = applyOp (applyOp (applyOp
                      { sA with tmp := some (some (nodeArchive n i fs)) }
                      (Op.openSlot (slotName n))) (Op.writeSlot (slotName n)))
                      Op.removeTmp) with rfl | rfl | rfl | rfl
            · left
              show getEntry sA.poolFiles (slotName n) = _
              rw [hsA, artifact_foldl_poolFiles]
            · right; left
              show getEntry (setEntry sA.poolFiles (slotName n) none)
                (slotName n) = _
              rw [getEntry_setEntry_self]
            · right; right
              show getEntry (setEntry (setEntry sA.poolFiles (slotName n) none)
                (slotName n) (some (nodeArchive n i fs))) (slotName n) = _
              rw [getEntry_setEntry_self]
            · right; right
              show getEntry (setEntry (setEntry sA.poolFiles (slotName n) none)
                (slotName n) (some (nodeArchive n i fs))) (slotName n) = _
              rw [getEntry_setEntry_self]
        · right; right
          rw [statesFrom_proj (fun u => u.poolFiles) _ _
            (fun u op ho => applyOp_poolFiles u op
              (writesPool_false_of_mem_pullOps n i fs op ho)) t h2,
            foldl_pushOpsFs]
          show getEntry (setEntry sA.poolFiles (slotName n)
            (some (nodeArchive n i fs))) (slotName n) = _
          rw [getEntry_setEntry_self]

/-! The claims. -/

/-- C1 counterexample: the claim says no peer can ever observe a zero-byte
    or partially written archive in the slot. Line 231 publishes with
    `shutil.move`, which is an atomic `os.rename` only when `fuzzer_tmp.tgz`
    (in the worker's working directory) and the slot (in the shared
    cross-node pool) are on the same filesystem; nothing in the code forces
    that, and across filesystems the move falls back to `copy2` + unlink. In
    the reachable state right after the fallback copy has opened and
    truncated the slot, the slot holds a zero-byte/partially written file:
    neither the slot's previous content nor the complete new archive. -/
theorem C1_counterexample :
    midWriteFS ∈ statesFrom sampleFS
        (ensembleOpsFs false true "1" "0" sampleFS) ∧
      getEntry midWriteFS.poolFiles (slotName "1") = some none ∧
      getEntry midWriteFS.poolFiles (slotName "1") ≠
        getEntry sampleFS.poolFiles (slotName "1") ∧
      getEntry midWriteFS.poolFiles (slotName "1") ≠
        some (some (nodeArchive "1" "0" sampleFS)) := by
  decide

/-- C1 (amended): the archive is fully assembled in the process-local
    `fuzzer_tmp.tgz`; a single `shutil.move` then publishes it under the
    node's fixed slot name `FuzzData_<node_id>.tgz`, overwriting the previous
    cycle's archive, and no other step of the cycle writes the pool root.
    When the working directory and the shared pool are on the same
    filesystem, the move is one atomic `os.rename`: every observable state
    shows the slot with either the previous content or the complete new
    archive. Across filesystems the move falls back to copy-then-delete: the
    one further observable slot state is the zero-byte/partially written
    (unreadable) file of the in-progress copy, and the cycle still ends with
    the complete new archive in the slot. -/
theorem C1_publish (sameFs : Bool) (n i : String) (fs : FS) :
    ((ensembleOps true n i fs).filter writesPool = [Op.moveTmp (slotName n)]) ∧
      (∀ t ∈ statesFrom fs (ensembleOps true n i fs),
          getEntry t.poolFiles (slotName n) =
            getEntry fs.poolFiles (slotName n) ∨
          getEntry t.poolFiles (slotName n) =
            some (some (nodeArchive n i fs))) ∧
      (∀ t ∈ statesFrom fs (ensembleOpsFs sameFs true n i fs),
          getEntry t.poolFiles (slotName n) =
            getEntry fs.poolFiles (slotName n) ∨
          getEntry t.poolFiles (slotName n) = some none ∨
          getEntry t.poolFiles (slotName n) =
            some (some (nodeArchive n i fs))) ∧
      getEntry (runEnsembleFs sameFs true n i fs).poolFiles (slotName n) =
        some (some (nodeArchive n i fs)) :=
  ⟨ensembleOps_filter_writesPool n i fs, slot_observables n i fs,
    slot_observables_fs sameFs n i fs, runEnsembleFs_slot sameFs n i fs⟩

theorem C1_witness :
    getEntry (runEnsembleFs false true "1" "0" sampleFS).poolFiles
        (slotName "1") = some (some (nodeArchive "1" "0" sampleFS)) ∧
      (getEntry midWriteFS.poolFiles (slotName "1") =
          getEntry sampleFS.poolFiles (slotName "1") ∨
        getEntry midWriteFS.poolFiles (slotName "1") = some none ∨
        getEntry midWriteFS.poolFiles (slotName "1") =
          some (some (nodeArchive "1" "0" sampleFS))) :=
  ⟨(C1_publish false "1" "0" sampleFS).2.2.2,
   (C1_publish false "1" "0" sampleFS).2.2.1 midWriteFS (by decide)⟩

/-- C2 counterexample: the claim says the archive contains exactly the
    publishing node's own workers, no directory of a different node's worker.
    With node id "1", the directory `fuzzer_10_0` - node "10"'s worker, as
    peer ingestion deposits it locally - is swept into the archive, because
    line 218 compares only the first eight characters (`fuzzer_1`), although
    `fuzzer_10_0` does not carry this node's worker-name prefix
    `fuzzer_1_`. -/
theorem C2_counterexample :
    ("fuzzer_10_0", sampleWorkerB) ∈ nodeArchive "1" "0" sampleFS ∧
      ("fuzzer_" ++ "1" ++ "_").data.isPrefixOf "fuzzer_10_0".data = false := by
  decide

/-- C2 (amended): the published archive contains exactly, for every local
    directory whose name agrees with the worker's name on the first eight
    characters (`selectsDir`, i.e. `fuzzer_` plus one further character -
    which coincides with node-id selection only when node ids are single,
    mutually distinct characters), that directory's stats file and entire
    queue under its relative path; a directory of a different node sharing
    that 8-character prefix is also included. -/
theorem C2_archive_contents (n i : String) (fs : FS) (d : String) (w : WorkerDir) :
    ∃ a, getEntry (runEnsemble true n i fs).poolFiles (slotName n) =
        some (some a) ∧
      ((d, w) ∈ a ↔
        ((d, w) ∈ fs.localDirs ∧ selectsDir (fuzzerName n i) d = true)) :=
  ⟨nodeArchive n i fs, runEnsemble_slot n i fs, by
    simp [nodeArchive, List.mem_filter]⟩

theorem C2_witness :
    ∃ a, getEntry (runEnsemble true "1" "0" sampleFS).poolFiles (slotName "1") =
        some (some a) ∧
      (("fuzzer_1_0", sampleWorkerA) ∈ a ↔
        (("fuzzer_1_0", sampleWorkerA) ∈ sampleFS.localDirs ∧
          selectsDir (fuzzerName "1" "0") "fuzzer_1_0" = true)) :=
  C2_archive_contents "1" "0" sampleFS "fuzzer_1_0" sampleWorkerA

/-- C3 counterexample: the claim says the only excluded slot is the node's
    own and every other node's archive is pulled. With node id "1", the slot
    `FuzzData_10.tgz` of node "10" is present in the pool and differs from
    this node's slot, yet line 236's check
    `f.startswith("FuzzData_" + self.fuzzer_node_id)` also matches it, so no
    pull of it occurs anywhere in the cycle. -/
theorem C3_counterexample :
    ("FuzzData_10.tgz", some [("fuzzer_10_0", sampleWorkerB)]) ∈
        poolAfterPublish "1" "0" sampleFS ∧
      "FuzzData_10.tgz" ≠ slotName "1" ∧
      Op.pullPeer "FuzzData_10.tgz" (some [("fuzzer_10_0", sampleWorkerB)]) ∉
        ensembleOps true "1" "0" sampleFS := by
  decide

/-- C3 (amended): during ingestion the primary pulls exactly the pool files
    that end in `.tgz` and do not start with `FuzzData_<own node id>`
    (`peerSelected`). This excludes the node's own slot, but also excludes
    any peer slot whose node id has the own node id as a prefix; it equals
    \x22exclude exactly the own slot\x22 only when no node id is a prefix of
    another. -/
theorem C3_ingestion_selection (n i f : String) (b : Blob) (fs : FS) :
    Op.pullPeer f b ∈ ensembleOps true n i fs ↔
      ((f, b) ∈ poolAfterPublish n i fs ∧ peerSelected n f = true) :=
  pullPeer_mem_ensembleOps n i f b fs

theorem C3_witness :
    Op.pullPeer "FuzzData_2.tgz" (some [("fuzzer_2_0", sampleWorkerB)]) ∈
      ensembleOps true "1" "0" sampleFS :=
  (C3_ingestion_selection "1" "0" "FuzzData_2.tgz"
    (some [("fuzzer_2_0", sampleWorkerB)]) sampleFS).mpr (by decide)

/-- C4: peer-archive failure isolation. Every selected peer archive has its
    own pull operation in the cycle's operation list, whatever the state of
    the other archives, so a corrupt archive cannot suppress the ingestion of
    the remaining ones; and the entire effect of a failed pull is the
    lingering temporary copy - the interpreter continues with the next
    operation, no exception escapes the loop (lines 244-247). -/
theorem C4_failure_isolation (n i f : String) (b : Blob) (fs : FS)
    (hmem : (f, b) ∈ poolAfterPublish n i fs)
    (hsel : peerSelected n f = true) :
    Op.pullPeer f b ∈ ensembleOps true n i fs ∧
      (∀ s : FS, applyOp s (Op.pullPeer f none) = { s with tmp := some none }) :=
  ⟨(pullPeer_mem_ensembleOps n i f b fs).mpr ⟨hmem, hsel⟩, fun _ => rfl⟩

theorem C4_witness :
    Op.pullPeer "FuzzData_3.tgz" none ∈ ensembleOps true "1" "0" sampleFS ∧
      (∀ s : FS, applyOp s (Op.pullPeer "FuzzData_3.tgz" none) =
        { s with tmp := some none }) :=
  C4_failure_isolation "1" "0" "FuzzData_3.tgz" none sampleFS
    (by decide) (by decide)

/-- C5 counterexample: the claim says the local temporary copy is discarded
    after extraction is attempted regardless of outcome. In `sampleFS` the
    pool holds the corrupt peer archive `FuzzData_3.tgz`; its extraction
    fails after the copy, `os.remove` (inside the `try`, line 243) is never
    reached, and the temporary copy survives the whole cycle. -/
theorem C5_counterexample :
    (runEnsemble true "1" "0" sampleFS).tmp ≠ none := by
  decide

/-- C5 (amended): the local temporary copy of a peer archive is discarded
    after a successful extraction; after a failed copy/extract it remains on
    disk (to be overwritten by the next cycle's copy, as the source comment
    at line 246 says). In particular, when every selected peer archive is
    intact, no temporary copy survives the cycle. -/
theorem C5_tmp_discard (n i : String) (fs : FS) :
    (∀ s : FS, ∀ f : String, ∀ a : Archive,
        (applyOp s (Op.pullPeer f (some a))).tmp = none) ∧
      (∀ s : FS, ∀ f : String,
        (applyOp s (Op.pullPeer f none)).tmp = some none) ∧
      ((∀ p ∈ poolAfterPublish n i fs, peerSelected n p.1 = true → p.2 ≠ none) →
        (runEnsemble true n i fs).tmp = none) :=
  ⟨fun _ _ _ => rfl, fun _ _ => rfl, runEnsemble_tmp_of_intact n i fs⟩

theorem C5_witness : (runEnsemble true "1" "0" sampleGoodFS).tmp = none :=
  (C5_tmp_discard "1" "0" sampleGoodFS).2.2 (by decide)

/-- C6: the primary flag is a pure, deterministic function of the worker id:
    a worker is primary exactly when its id is the string "0" (lines 55-58),
    and two workers with distinct ids are never both primary, so at most one
    worker per node is primary. -/
theorem C6_primary_flag (a b : String) (hne : a ≠ b) :
    (isPrimaryFuzzer a = true ↔ a = "0") ∧
      ¬(isPrimaryFuzzer a = true ∧ isPrimaryFuzzer b = true) := by
  refine ⟨by simp [isPrimaryFuzzer], ?_⟩
  rintro ⟨ha, hb⟩
  have ha' : a = "0" := by simpa [isPrimaryFuzzer] using ha
  have hb' : b = "0" := by simpa [isPrimaryFuzzer] using hb
  exact hne (by rw [ha', hb'])

theorem C6_witness :
    (isPrimaryFuzzer "0" = true ↔ "0" = "0") ∧
      ¬(isPrimaryFuzzer "0" = true ∧ isPrimaryFuzzer "1" = true) :=
  C6_primary_flag "0" "1" (by decide)

/-- C7: within one cycle the operations occur in the fixed order - publish
    hangs (phase 0), publish crashes (phase 1), then for a primary the
    archive build and publish (phase 2) followed by peer ingestion
    (phase 3): the phase sequence of the operation list is monotone. A
    primary's cycle does contain the archive publish; a secondary's cycle
    consists exclusively of phase 0 and 1 operations, skipping steps (3)
    and (4). -/
theorem C7_cycle_order (primary : Bool) (n i : String) (fs : FS) :
    ((ensembleOps primary n i fs).map phase).Sorted (· ≤ ·) ∧
      (primary = true → Op.moveTmp (slotName n) ∈ ensembleOps primary n i fs) ∧
      (primary = false → ∀ op ∈ ensembleOps primary n i fs, phase op ≤ 1) := by
  refine ⟨ensembleOps_phases_sorted primary n i fs, ?_, ?_⟩
  · rintro rfl
    rw [ensembleOps_true]
    refine List.mem_append_right _ (List.mem_append_left _ ?_)
    exact List.mem_append_right _ (List.mem_singleton.mpr rfl)
  · rintro rfl
    intro op hop
    rw [ensembleOps_false] at hop
    rcases List.mem_append.mp hop with h | h
    · obtain ⟨p, hp, rfl⟩ := List.mem_map.mp h
      exact Nat.zero_le 1
    · obtain ⟨p, hp, rfl⟩ := List.mem_map.mp h
      exact Nat.le_refl 1

theorem C7_witness :
    Op.moveTmp (slotName "1") ∈ ensembleOps true "1" "0" sampleFS ∧
      (∀ op ∈ ensembleOps false "1" "0" sampleFS, phase op ≤ 1) :=
  ⟨(C7_cycle_order true "1" "0" sampleFS).2.1 rfl,
   (C7_cycle_order false "1" "0" sampleFS).2.2 rfl⟩

/-- C8: on a stats file containing the four recognized lines the reporter
    returns exactly the four parsed values (keyed by its fixed display
    names); when the required key `unique_hangs` is missing from the file, or
    the file itself is missing, the reporter surfaces an error to the caller
    instead of substituting a default. -/
theorem C8_reporter_exact :
    reporter (some ["execs_done: 1000", "cycles_done: 3", "unique_crashes: 2",
        "unique_hangs: 1"]) =
      Except.ok [("Execs Done", "1000"), ("Cycle Completed", "3"),
        ("Unique Crashes", "2"), ("Unique Hangs", "1")] ∧
      reporter (some ["execs_done: 1000", "cycles_done: 3",
        "unique_crashes: 2"]) = Except.error "missing stat: unique_hangs" ∧
      reporter none = Except.error "FileNotFoundError" :=
  ⟨rfl, rfl, rfl⟩

/-- C9: artifact publishing copies and never moves. For every worker role,
    the local hang and crash listings are unchanged by the whole cycle; every
    local hang/crash file has its copy operation in the cycle; and after the
    cycle every such filename is present in the corresponding shared-pool
    directory with a content drawn from the local listing. -/
theorem C9_artifact_copy (primary : Bool) (n i : String) (fs : FS) :
    (runEnsemble primary n i fs).localHangs = fs.localHangs ∧
      (runEnsemble primary n i fs).localCrashes = fs.localCrashes ∧
      (∀ p ∈ fs.localHangs,
        Op.copyHang p.1 p.2 ∈ ensembleOps primary n i fs) ∧
      (∀ p ∈ fs.localCrashes,
        Op.copyCrash p.1 p.2 ∈ ensembleOps primary n i fs) ∧
      (∀ p ∈ fs.localHangs, ∃ c, (p.1, c) ∈ fs.localHangs ∧
        getEntry (runEnsemble primary n i fs).poolHangs p.1 = some c) ∧
      (∀ p ∈ fs.localCrashes, ∃ c, (p.1, c) ∈ fs.localCrashes ∧
        getEntry (runEnsemble primary n i fs).poolCrashes p.1 = some c) := by
  refine ⟨runEnsemble_localHangs primary n i fs,
    runEnsemble_localCrashes primary n i fs, ?_, ?_, ?_, ?_⟩
  · intro p hp
    exact List.mem_append_left _
      (List.mem_append_left _ (List.mem_map.mpr ⟨p, hp, rfl⟩))
  · intro p hp
    exact List.mem_append_left _
      (List.mem_append_right _ (List.mem_map.mpr ⟨p, hp, rfl⟩))
  · intro p hp
    rw [runEnsemble_poolHangs]
    exact getEntry_foldl_setEntry_mem fs.localHangs fs.poolHangs p.1
      (List.mem_map.mpr ⟨p, hp, rfl⟩)
  · intro p hp
    rw [runEnsemble_poolCrashes]
    exact getEntry_foldl_setEntry_mem fs.localCrashes fs.poolCrashes p.1
      (List.mem_map.mpr ⟨p, hp, rfl⟩)

theorem C9_witness :
    (runEnsemble true "1" "0" sampleFS).localHangs = sampleFS.localHangs ∧
      ∃ c, ("hang1", c) ∈ sampleFS.localHangs ∧
        getEntry (runEnsemble true "1" "0" sampleFS).poolHangs "hang1" = some c :=
  ⟨(C9_artifact_copy true "1" "0" sampleFS).1,
   (C9_artifact_copy true "1" "0" sampleFS).2.2.2.2.1
     ("hang1", "hangdata") (by decide)⟩

/-- C10: seed intake treats a failed move as a lost claim, not an error. The
    loop runs to completion for every mix of successes and failures,
    producing exactly one event per staged file in order; a failed move only
    yields a `skipped` event while the queue receives exactly the
    successfully moved files. -/
theorem C10_seed_intake (remote : List (String × Bool)) (queue : List String) :
    pullSeeds remote queue =
        (queue ++ (remote.filter (fun p => p.2)).map (fun p => p.1),
         remote.map (fun p =>
           if p.2 then SeedEvent.moved p.1 else SeedEvent.skipped p.1)) ∧
      (∀ p ∈ remote, p.2 = false →
        SeedEvent.skipped p.1 ∈ (pullSeeds remote queue).2) := by
  have h := pullSeeds_foldl remote queue []
  rw [pullSeeds, h]
  refine ⟨by simp, ?_⟩
  intro p hp hfail
  simp only [List.nil_append]
  exact List.mem_map.mpr ⟨p, hp, by rw [hfail]; rfl⟩

theorem C10_witness :
    SeedEvent.skipped "seedB" ∈
      (pullSeeds [("seedA", true), ("seedB", false), ("seedC", true)] ["old"]).2 :=
  (C10_seed_intake [("seedA", true), ("seedB", false), ("seedC", true)]
    ["old"]).2 ("seedB", false) (by decide) rfl

end AflEnsemble
